import Mathlib

/-!
# Verification of the `mingo` connection pool (`pool.go`, `conn*.go`)

Shallow embedding of the pool's data model and operations. Conventions:

* Physical connections are identified by `Nat` ids. The pool never inspects a
  connection's wire state, so an id plus an external error environment
  (`Nat → Bool`) is a faithful abstraction of the `Conn` interface.
* `time.Time` values and `time.Duration` values are embedded as `Int`
  (nanoseconds). `nowFunc()` is passed to each operation as an explicit `now`
  argument; the several `nowFunc()` calls inside one operation are identified,
  which is the standard frozen-clock abstraction.
* The intrusive doubly-linked `idleList` is embedded as a `List PoolConn`
  whose head is the list's `front` and whose last element is its `back`;
  `pushFront` is `cons`, `popFront` is `tail`, `popBack` is `dropLast`.
* The buffered channel `p.ch` (capacity `MaxActive`) is embedded as
  `Option Nat`: `none` while uninitialized, `some k` when it holds `k`
  tokens; `chClosed` records whether `close(p.ch)` has run. A receive on a
  closed channel succeeds (consuming a buffered token when one remains);
  a receive on an open empty channel blocks, which surfaces as
  `GetStep.blocked`.
* `Dial` is the application-supplied factory; the outcome of the single
  `p.Dial()` call inside `get` is the explicit argument
  `dial : Option Nat` (`some id` on success, `none` on error).
* `TestOnBorrow` is embedded as `Option (Nat → Int → Bool)`; `f c t = true`
  means the hook returned a nil error (the connection is healthy).
* Fallible operations return the closed-connection ids they produced, so
  "closed exactly once" is a statement about that output list.
-/

namespace Mingo

/-- `poolConn` (pool.go): wraps one physical connection `c` with the
timestamp `t` at which it was last returned to the pool and its `created`
timestamp. The intrusive `next`/`prev` pointers are represented by the
position of the `PoolConn` inside the embedding's `List PoolConn`. -/
structure PoolConn where
  c : Nat
  t : Int
  created : Int
  deriving DecidableEq, Repr

/-- The errors `get` can produce: `errors.New("mingo: get on closed pool")`,
`ErrPoolExhausted`, and a `Dial` failure (propagated as-is). -/
inductive GetErr where
  | poolClosed
  | poolExhausted
  | dialFailed
  deriving DecidableEq, Repr

/-- `Pool` (pool.go): configuration fields (`TestOnBorrow`, `MaxIdle`,
`MaxActive`, `IdleTimeout`, `Wait`, `MaxConnLifetime`) together with the
mutable state guarded by `p.mu` (`closed`, `active`, `ch`, `idle`).
`chClosed` records whether the Go channel `ch` has been `close`d. -/
structure Pool where
  testOnBorrow : Option (Nat → Int → Bool)
  maxIdle : Int
  maxActive : Int
  idleTimeout : Int
  wait : Bool
  maxConnLifetime : Int
  closed : Bool
  active : Int
  ch : Option Nat
  chClosed : Bool
  idle : List PoolConn

/-- A freshly constructed pool: configuration set, mutable state zeroed
(the Go zero value of the struct's stateful fields). -/
def Pool.init (tob : Option (Nat → Int → Bool)) (maxIdle maxActive idleTimeout : Int)
    (wait : Bool) (maxConnLifetime : Int) : Pool :=
  { testOnBorrow := tob, maxIdle := maxIdle, maxActive := maxActive,
    idleTimeout := idleTimeout, wait := wait, maxConnLifetime := maxConnLifetime,
    closed := false, active := 0, ch := none, chClosed := false, idle := [] }

/-- The staleness test of `get`'s pruning loop:
`p.idle.back.t.Add(p.IdleTimeout).Before(nowFunc())`. -/
def stale (p : Pool) (now : Int) (pc : PoolConn) : Bool :=
  decide (pc.t + p.idleTimeout < now)

/-- The borrow test of `get`'s idle scan:
`(p.TestOnBorrow == nil || p.TestOnBorrow(pc.c, pc.t) == nil) &&
 (p.MaxConnLifetime == 0 || nowFunc().Sub(pc.created) < p.MaxConnLifetime)`. -/
def testPass (p : Pool) (now : Int) (pc : PoolConn) : Bool :=
  (match p.testOnBorrow with
   | none => true
   | some f => f pc.c pc.t) &&
  (p.maxConnLifetime == 0 || decide (now - pc.created < p.maxConnLifetime))

/-- The pruning loop of `get` (pool.go lines 267-277): starting from the
back of the idle list, while the back entry is stale, pop it, close it and
decrement `active`; the loop index `i < n` bounds the iterations by the
initial idle count, which is the `fuel` argument. Returns the remaining
idle list, the new `active` value, and the closed ids in close order. -/
def pruneLoop (p : Pool) (now : Int) : Nat → List PoolConn → Int →
    List PoolConn × Int × List Nat
  | 0, idle, act => (idle, act, [])
  | fuel + 1, idle, act =>
    match idle.getLast? with
    | none => (idle, act, [])
    | some pc =>
      if stale p now pc then
        let r := pruneLoop p now fuel idle.dropLast (act - 1)
        (r.1, r.2.1, pc.c :: r.2.2)
      else (idle, act, [])

/-- The guarded pruning phase of `get`: runs `pruneLoop` only when
`p.IdleTimeout > 0`, with fuel `n := p.idle.count`. -/
def prunePhase (p : Pool) (now : Int) (idle : List PoolConn) (act : Int) :
    List PoolConn × Int × List Nat :=
  if 0 < p.idleTimeout then pruneLoop p now idle.length idle act else (idle, act, [])

/-- The idle-scan loop of `get` (pool.go lines 280-291): pop entries from
the front; the first entry passing `testPass` is returned; every failing
entry is closed and `active` decremented. Returns the connection found (if
any), the remaining idle list, the new `active`, and the closed ids in
close order. -/
def scanLoop (p : Pool) (now : Int) : List PoolConn → Int →
    Option PoolConn × List PoolConn × Int × List Nat
  | [], act => (none, [], act, [])
  | pc :: rest, act =>
    if testPass p now pc then (some pc, rest, act, [])
    else
      let r := scanLoop p now rest (act - 1)
      (r.1, r.2.1, r.2.2.1, pc.c :: r.2.2.2)

/-- Result of one (possibly blocking) `get` call: `blocked` when the call
is parked on an empty open admission channel, otherwise the returned
connection or error, the post-state of the pool, and the ids closed during
the call. -/
inductive GetStep where
  | blocked
  | done (result : Except GetErr PoolConn) (p : Pool) (closedConns : List Nat)

/-- `lazyInit` (pool.go lines 222-241): on first use make the admission
channel with capacity `MaxActive`; if the pool is already closed, close the
channel, otherwise fill it with `MaxActive` tokens. -/
def Pool.lazyInit (p : Pool) : Pool :=
  match p.ch with
  | some _ => p
  | none =>
    if p.closed then { p with ch := some 0, chClosed := true }
    else { p with ch := some p.maxActive.toNat }

/-- The body of `get` from `p.mu.Lock()` (pool.go line 264) onward:
prune stale entries, scan the idle list, then check `closed`, check the
non-blocking capacity ceiling, and finally dial. On a successful dial the
new `poolConn` carries `created := now` and a zero idle timestamp; on a
dial failure `active` is rolled back and, when the channel exists and the
pool is open, one token is sent back. -/
def Pool.getLocked (p : Pool) (now : Int) (dial : Option Nat) : GetStep :=
  let pr := prunePhase p now p.idle p.active
  match scanLoop p now pr.1 pr.2.1 with
  | (some pc, idle2, act2, cl2) =>
    GetStep.done (Except.ok pc) { p with idle := idle2, active := act2 } (pr.2.2 ++ cl2)
  | (none, idle2, act2, cl2) =>
    let p2 : Pool := { p with idle := idle2, active := act2 }
    let cl := pr.2.2 ++ cl2
    if p2.closed then GetStep.done (Except.error GetErr.poolClosed) p2 cl
    else if !p.wait && decide (0 < p.maxActive) && decide (p.maxActive ≤ p2.active) then
      GetStep.done (Except.error GetErr.poolExhausted) p2 cl
    else
      let p3 : Pool := { p2 with active := p2.active + 1 }
      match dial with
      | some cid =>
        GetStep.done (Except.ok { c := cid, t := 0, created := now }) p3 cl
      | none =>
        let p4 : Pool := { p3 with active := p3.active - 1 }
        let p5 : Pool :=
          match p4.ch with
          | some k => if !p4.closed then { p4 with ch := some (k + 1) } else p4
          | none => p4
        GetStep.done (Except.error GetErr.dialFailed) p5 cl

/-- `get` (pool.go lines 245-318), with `ctx == nil` as called from
`Pool.Get`: when `Wait` and a positive ceiling are configured, lazily
initialize the channel and receive one token (blocking when the channel is
open and empty; succeeding immediately when it is closed), then run the
locked body. -/
def Pool.get (p : Pool) (now : Int) (dial : Option Nat) : GetStep :=
  if p.wait && decide (0 < p.maxActive) then
    match p.lazyInit.ch with
    | none => GetStep.blocked
    | some k =>
      if !p.lazyInit.chClosed && k == 0 then GetStep.blocked
      else Pool.getLocked { p.lazyInit with ch := some (k - 1) } now dial
  else Pool.getLocked p now dial

/-- `put` (pool.go lines 320-345): when the pool is open and `forceClose`
is false, stamp the connection idle-now and push it to the front of the
idle list, then, if the idle count exceeds `MaxIdle`, evict the back entry
instead; any victim (the evicted back entry, or the returned connection
itself when the pool is closed or `forceClose` holds) is closed and
`active` decremented; finally, when the channel exists and the pool is
open, send one token. Returns the pool and the closed ids (`put` itself
always returns a nil error). -/
def Pool.put (p : Pool) (pc : PoolConn) (forceClose : Bool) (now : Int) :
    Pool × List Nat :=
  let pushed :=
    if !p.closed && !forceClose then
      let l := { pc with t := now } :: p.idle
      if p.maxIdle < (l.length : Int) then (l.dropLast, l.getLast?)
      else (l, none)
    else (p.idle, some pc)
  let res :=
    match pushed.2 with
    | some v => (p.active - 1, [v.c])
    | none => (p.active, ([] : List Nat))
  let p1 : Pool := { p with idle := pushed.1, active := res.1 }
  let p2 : Pool :=
    match p1.ch with
    | some k => if !p1.closed then { p1 with ch := some (k + 1) } else p1
    | none => p1
  (p2, res.2)

/-- `Pool.Close` (pool.go lines 200-220): a no-op on an already-closed
pool; otherwise set `closed`, detach the whole idle list at once,
subtract the detached count from `active`, close the channel when it
exists, and close every detached connection outside the lock. Returns the
pool and the closed ids (the Go function always returns a nil error). -/
def Pool.closePool (p : Pool) : Pool × List Nat :=
  if p.closed then (p, [])
  else
    let p1 : Pool :=
      { p with closed := true, active := p.active - p.idle.length, idle := [],
               chClosed := p.ch.isSome || p.chClosed }
    (p1, p.idle.map (·.c))

/-- `poolConn.Close` (pool.go lines 356-358): route to `put` with
`forceClose := pc.Err() != nil`. The error state of the underlying
connections is the environment `connErr : Nat → Bool` (`true` meaning
`Err()` returns a non-nil error). -/
def PoolConn.close (p : Pool) (pc : PoolConn) (connErr : Nat → Bool) (now : Int) :
    Pool × List Nat :=
  Pool.put p pc (connErr pc.c) now

/-- `ErrorConn` (pool.go lines 367-373): a connection-shaped value holding
only the error from a failed `get`. -/
structure ErrorConn where
  error : GetErr
  deriving DecidableEq, Repr

/-- `(*ErrorConn).Close` returns the stored error. -/
def ErrorConn.close (ec : ErrorConn) : GetErr := ec.error

/-- `(*ErrorConn).Err` returns the stored error. -/
def ErrorConn.errResult (ec : ErrorConn) : GetErr := ec.error

/-- `(*ErrorConn).Pub` ignores its arguments and returns the stored error. -/
def ErrorConn.pub (ec : ErrorConn) (_topic : String) (_message : List UInt8) : GetErr :=
  ec.error

/-- A connection handle as returned by `Pool.Get`: either a real pooled
connection or the sentinel `ErrorConn`. -/
inductive ConnHandle where
  | pooled (pc : PoolConn)
  | failed (ec : ErrorConn)
  deriving DecidableEq, Repr

/-- Result of one (possibly blocking) `Pool.Get` call. -/
inductive PoolGetStep where
  | blocked
  | done (h : ConnHandle) (p : Pool) (closedConns : List Nat)

/-- `Pool.Get` (pool.go lines 154-160): call `get`; on error wrap the
error in an `ErrorConn`, otherwise hand out the pooled connection. -/
def Pool.Get (p : Pool) (now : Int) (dial : Option Nat) : PoolGetStep :=
  match Pool.get p now dial with
  | GetStep.blocked => PoolGetStep.blocked
  | GetStep.done (Except.ok pc) p' cl => PoolGetStep.done (ConnHandle.pooled pc) p' cl
  | GetStep.done (Except.error e) p' cl =>
    PoolGetStep.done (ConnHandle.failed { error := e }) p' cl

/-- `Pool.ActiveCount` (pool.go lines 185-190). -/
def Pool.activeCount (p : Pool) : Int := p.active

/-- `Pool.IdleCount` (pool.go lines 193-198). -/
def Pool.idleCount (p : Pool) : Nat := p.idle.length

/-! ## Trace semantics

A `World` pairs the pool with the multiset of currently checked-out
connections (those handed to callers by `get` and not yet returned).
Operations are serialized, reflecting that every state observation in the
Go code happens under `p.mu`. -/

/-- One pool operation of a trace: a (completed or blocked) `get` with its
clock reading and dial outcome, a return of the `i`-th checked-out
connection through `put`, or a pool `Close`. -/
inductive SysOp where
  | get (now : Int) (dial : Option Nat)
  | put (i : Nat) (forceClose : Bool) (now : Int)
  | closePool

/-- Pool state together with the connections currently checked out. -/
structure World where
  p : Pool
  checkedOut : List PoolConn

/-- A fresh world: a just-constructed pool, nothing checked out. -/
def World.init (tob : Option (Nat → Int → Bool)) (maxIdle maxActive idleTimeout : Int)
    (wait : Bool) (maxConnLifetime : Int) : World :=
  { p := Pool.init tob maxIdle maxActive idleTimeout wait maxConnLifetime,
    checkedOut := [] }

/-- Execute one operation. A blocked `get` leaves the world unchanged (the
caller is still parked); a successful `get` checks its connection out; a
`put` of an invalid index is a no-op (no such checked-out connection). -/
def World.step (w : World) : SysOp → World
  | SysOp.get now dial =>
    match Pool.get w.p now dial with
    | GetStep.blocked => w
    | GetStep.done (Except.ok pc) p' _ =>
      { p := p', checkedOut := pc :: w.checkedOut }
    | GetStep.done (Except.error _) p' _ =>
      { p := p', checkedOut := w.checkedOut }
  | SysOp.put i force now =>
    match w.checkedOut.get? i with
    | none => w
    | some pc =>
      { p := (Pool.put w.p pc force now).1, checkedOut := w.checkedOut.eraseIdx i }
  | SysOp.closePool =>
    { p := (Pool.closePool w.p).1, checkedOut := w.checkedOut }

/-! ## Low-level connection (`conn`, in the protocol files)

The low-level `conn` guards an `err` field with its own mutex; `fatal` and
`Close` latch the first error and close the underlying `net.Conn`. The
embedding keeps the latched error and counts the calls made to the
underlying `net.Conn`'s `Close`; buffered-writer/reader internals are the
I/O surface and their failures enter the model as explicit `Option String`
outcome arguments. -/

/-- The state of a low-level `conn`: the latched error and the number of
`c.conn.Close()` calls issued so far. -/
structure LLConn where
  err : Option String
  closeCount : Nat
  deriving DecidableEq, Repr

/-- `conn.fatal`: latch `e` and close the underlying connection, but only
when no error is latched yet; always return `e` to the caller. -/
def LLConn.fatal (c : LLConn) (e : String) : LLConn × String :=
  if c.err = none then ({ err := some e, closeCount := c.closeCount + 1 }, e)
  else (c, e)

/-- `conn.Close`: when an error is already latched, return it without
touching the underlying connection; otherwise latch `"mingo: closed"`,
close the underlying connection and return that close's result
(`netCloseErr`). -/
def LLConn.close (c : LLConn) (netCloseErr : Option String) : LLConn × Option String :=
  match c.err with
  | some e => (c, some e)
  | none =>
    ({ err := some "mingo: closed", closeCount := c.closeCount + 1 }, netCloseErr)

/-- `conn.Err`: return the latched error under the mutex. -/
def LLConn.errResult (c : LLConn) : Option String := c.err

/-- `conn.Pub` (the publish-only protocol file): an empty topic or nil
message is fatal; then the buffered write and the flush each either
succeed or hit an I/O error (`writeErr` / `flushErr`) that is routed
through `fatal`. -/
def LLConn.pub (c : LLConn) (topic : String) (message : Option (List UInt8))
    (writeErr flushErr : Option String) : LLConn × Option String :=
  if topic.length = 0 ∨ message = none then
    let r := c.fatal "topic and message should not be empty"
    (r.1, some r.2)
  else
    match writeErr with
    | some e => let r := c.fatal e; (r.1, some r.2)
    | none =>
      match flushErr with
      | some e => let r := c.fatal e; (r.1, some r.2)
      | none => (c, none)

/-- `conn.Send` (the request/response protocol file): a `writeCommand`
failure is fatal, otherwise nothing observable changes. -/
def LLConn.send (c : LLConn) (writeCmdErr : Option String) : LLConn × Option String :=
  match writeCmdErr with
  | some e => let r := c.fatal e; (r.1, some r.2)
  | none => (c, none)

/-- `conn.Flush`: a buffered-writer flush failure is fatal. -/
def LLConn.flushOp (c : LLConn) (flushErr : Option String) : LLConn × Option String :=
  match flushErr with
  | some e => let r := c.fatal e; (r.1, some r.2)
  | none => (c, none)

/-- `conn.Receive`: a `readReply` failure is fatal; an `Error`-typed reply
is returned without touching the latched state. -/
def LLConn.receive (c : LLConn) (readReplyErr : Option String) : LLConn × Option String :=
  match readReplyErr with
  | some e => let r := c.fatal e; (r.1, some r.2)
  | none => (c, none)

/-- `conn.Post`: an empty command returns immediately; a `writeCommand`,
flush, or `readReply` failure is fatal; an `Error`-typed reply is returned
as the error without latching. -/
def LLConn.post (c : LLConn) (cmdEmpty : Bool)
    (writeCmdErr flushErr readReplyErr : Option String) : LLConn × Option String :=
  if cmdEmpty then (c, none)
  else
    match writeCmdErr with
    | some e => let r := c.fatal e; (r.1, some r.2)
    | none =>
      match flushErr with
      | some e => let r := c.fatal e; (r.1, some r.2)
      | none =>
        match readReplyErr with
        | some e => let r := c.fatal e; (r.1, some r.2)
        | none => (c, none)

/-- One operation on a low-level connection, with the outcomes of the
underlying I/O calls as data. -/
inductive LLOp where
  | close (netCloseErr : Option String)
  | pub (topic : String) (message : Option (List UInt8)) (writeErr flushErr : Option String)
  | send (writeCmdErr : Option String)
  | flush (flushErr : Option String)
  | receive (readReplyErr : Option String)
  | post (cmdEmpty : Bool) (writeCmdErr flushErr readReplyErr : Option String)

/-- Apply one operation to the connection state. -/
def LLConn.step (c : LLConn) : LLOp → LLConn
  | LLOp.close nce => (c.close nce).1
  | LLOp.pub topic msg we fe => (c.pub topic msg we fe).1
  | LLOp.send we => (c.send we).1
  | LLOp.flush fe => (c.flushOp fe).1
  | LLOp.receive re => (c.receive re).1
  | LLOp.post ce we fe re => (c.post ce we fe re).1

/-! ## Concrete states used to exercise the definitions -/

/-- A pool in wait mode at its ceiling (`MaxActive = 1`, one connection
checked out, channel drained) — the state right before a return. -/
def exPoolC2 : Pool :=
  { testOnBorrow := none, maxIdle := 1, maxActive := 1, idleTimeout := 0,
    wait := true, maxConnLifetime := 0, closed := false, active := 1,
    ch := some 0, chClosed := false, idle := [] }

/-- A pool with `MaxConnLifetime = 30` holding one over-age idle connection
(id 1, created at 60) in front of one young idle connection (id 2, created
at 95). -/
def exPoolLife : Pool :=
  { testOnBorrow := none, maxIdle := 3, maxActive := 0, idleTimeout := 0,
    wait := false, maxConnLifetime := 30, closed := false, active := 2,
    ch := none, chClosed := false,
    idle := [{ c := 1, t := 95, created := 60 }, { c := 2, t := 90, created := 95 }] }

/-- A pool with `IdleTimeout = 10` holding a fresh idle connection (id 1,
idled at 95) in front of a stale one (id 2, idled at 50). -/
def exPoolPrune : Pool :=
  { testOnBorrow := none, maxIdle := 3, maxActive := 0, idleTimeout := 10,
    wait := false, maxConnLifetime := 0, closed := false, active := 2,
    ch := none, chClosed := false,
    idle := [{ c := 1, t := 95, created := 0 }, { c := 2, t := 50, created := 0 }] }

/-- A pool with `MaxIdle = 1` whose idle registry is already full
(connection 1, idled at 10). -/
def exPoolPut : Pool :=
  { testOnBorrow := none, maxIdle := 1, maxActive := 0, idleTimeout := 0,
    wait := false, maxConnLifetime := 0, closed := false, active := 2,
    ch := none, chClosed := false, idle := [{ c := 1, t := 10, created := 0 }] }

/-- An open pool with two idle connections and one checked out
(`active = 3`), about to be shut down. -/
def exPoolClose : Pool :=
  { testOnBorrow := none, maxIdle := 3, maxActive := 0, idleTimeout := 0,
    wait := false, maxConnLifetime := 0, closed := false, active := 3,
    ch := none, chClosed := false,
    idle := [{ c := 1, t := 95, created := 0 }, { c := 2, t := 50, created := 0 }] }

/-- A non-waiting pool at its ceiling (`MaxActive = 2`, both connections
checked out, idle registry empty). -/
def exPoolFull : Pool :=
  { testOnBorrow := none, maxIdle := 1, maxActive := 2, idleTimeout := 0,
    wait := false, maxConnLifetime := 0, closed := false, active := 2,
    ch := none, chClosed := false, idle := [] }

/-- A low-level connection whose error has already been latched. -/
def exConn : LLConn := { err := some "boom", closeCount := 1 }

/-! ## Helper lemmas -/

/-- The idle scan returns the first entry passing `testPass`, closes every
entry before it (in pop order), and decrements `active` once per closed
entry; when no entry passes, the whole list is closed. -/
theorem scanLoop_eq (p : Pool) (now : Int) (idle : List PoolConn) (act : Int) :
    scanLoop p now idle act =
      match idle.dropWhile (fun pc => !testPass p now pc) with
      | [] => (none, [], act - idle.length, idle.map (·.c))
      | pc :: rest =>
        (some pc, rest,
         act - ((idle.takeWhile (fun pc => !testPass p now pc)).length : Int),
         (idle.takeWhile (fun pc => !testPass p now pc)).map (·.c)) := by
  induction idle generalizing act with
  | nil => simp [scanLoop]
  | cons hd tl ih =>
    by_cases h : testPass p now hd
    · simp [scanLoop, h, List.dropWhile_cons, List.takeWhile_cons]
    · rw [show scanLoop p now (hd :: tl) act =
        (let r := scanLoop p now tl (act - 1);
         (r.1, r.2.1, r.2.2.1, hd.c :: r.2.2.2)) from by simp [scanLoop, h]]
      rw [ih]
      cases hdrop : tl.dropWhile (fun pc => !testPass p now pc) with
      | nil =>
        simp [List.dropWhile_cons, h, hdrop, List.takeWhile_cons]
        omega
      | cons pc rest =>
        simp [List.dropWhile_cons, h, hdrop, List.takeWhile_cons]
        omega

/-- The pruning loop preserves the difference between `active` and the
idle count: it decrements both together. -/
theorem pruneLoop_active (p : Pool) (now : Int) (fuel : Nat) :
    ∀ (idle : List PoolConn) (act : Int),
      (pruneLoop p now fuel idle act).2.1 -
          ((pruneLoop p now fuel idle act).1.length : Int) =
        act - (idle.length : Int) := by
  induction fuel with
  | zero => intro idle act; simp [pruneLoop]
  | succ fuel ih =>
    intro idle act
    cases hlast : idle.getLast? with
    | none => simp [pruneLoop, hlast]
    | some pc =>
      by_cases hst : stale p now pc
      · have hne : idle ≠ [] := by
          intro hnil; rw [hnil] at hlast; simp at hlast
        have hlen : idle.dropLast.length = idle.length - 1 := by
          simp [List.length_dropLast]
        have hpos : 0 < idle.length := List.length_pos.mpr hne
        have h2 := ih idle.dropLast (act - 1)
        rw [hlen] at h2
        simp only [pruneLoop, hlast, hst, if_true]
        omega
      · simp [pruneLoop, hlast, hst]

/-- The guarded pruning phase preserves `active - idleCount` as well. -/
theorem prunePhase_active (p : Pool) (now : Int) (idle : List PoolConn) (act : Int) :
    (prunePhase p now idle act).2.1 - ((prunePhase p now idle act).1.length : Int) =
      act - (idle.length : Int) := by
  unfold prunePhase
  by_cases h : 0 < p.idleTimeout
  · simp only [h, if_true]
    exact pruneLoop_active p now idle.length idle act
  · simp [h]

/-- A scan that finds a connection increments `active - idleCount` by one
(the found connection left the idle list without `active` changing for it). -/
theorem scanLoop_some (p : Pool) (now : Int) (idle : List PoolConn) (act : Int)
    (pc : PoolConn) (idle2 : List PoolConn) (act2 : Int) (cl : List Nat)
    (h : scanLoop p now idle act = (some pc, idle2, act2, cl)) :
    act2 - (idle2.length : Int) = act - (idle.length : Int) + 1 := by
  rw [scanLoop_eq] at h
  cases hdrop : idle.dropWhile (fun pc => !testPass p now pc) with
  | nil => rw [hdrop] at h; simp at h
  | cons hd rest =>
    rw [hdrop] at h
    simp only [Prod.mk.injEq, Option.some.injEq] at h
    obtain ⟨hpc, hidle2, hact2, hcl⟩ := h
    have hsplit := List.takeWhile_append_dropWhile
      (p := fun pc => !testPass p now pc) (l := idle)
    have hlen : (idle.takeWhile (fun pc => !testPass p now pc)).length
        + (rest.length + 1) = idle.length := by
      conv_rhs => rw [← hsplit, hdrop]
      simp
    subst hidle2 hact2
    omega

/-- A scan that finds nothing empties the idle list and decrements
`active` once per former entry. -/
theorem scanLoop_none (p : Pool) (now : Int) (idle : List PoolConn) (act : Int)
    (idle2 : List PoolConn) (act2 : Int) (cl : List Nat)
    (h : scanLoop p now idle act = (none, idle2, act2, cl)) :
    idle2 = [] ∧ act2 = act - (idle.length : Int) := by
  rw [scanLoop_eq] at h
  cases hdrop : idle.dropWhile (fun pc => !testPass p now pc) with
  | nil =>
    rw [hdrop] at h
    simp only [Prod.mk.injEq] at h
    exact ⟨h.2.1.symm, h.2.2.1.symm⟩
  | cons hd rest => rw [hdrop] at h; simp at h

/-- The contribution of a `get` result to `active - idleCount`: one for a
handed-out connection, zero for an error. -/
def okBump : Except GetErr PoolConn → Int
  | Except.ok _ => 1
  | Except.error _ => 0

/-- Any completed locked `get` body preserves the `closed` flag and moves
`active - idleCount` up by exactly one on success and not at all on
failure. -/
theorem getLocked_done (p : Pool) (now : Int) (dial : Option Nat)
    (r : Except GetErr PoolConn) (p' : Pool) (cl : List Nat)
    (h : Pool.getLocked p now dial = GetStep.done r p' cl) :
    p'.closed = p.closed ∧
    p'.active - (p'.idle.length : Int) =
      p.active - (p.idle.length : Int) + okBump r := by
  have hpr := prunePhase_active p now p.idle p.active
  simp only [Pool.getLocked] at h
  split at h
  next pc idle2 act2 cl2 hscan =>
    cases h
    refine ⟨rfl, ?_⟩
    have h1 := scanLoop_some p now _ _ _ _ _ _ hscan
    rw [hpr] at h1
    simpa [okBump] using h1
  next idle2 act2 cl2 hscan =>
    have h1 := scanLoop_none p now _ _ _ _ _ hscan
    rw [hpr] at h1
    obtain ⟨hidle2, hact2⟩ := h1
    subst hidle2
    split at h
    · cases h
      simpa [okBump] using hact2
    · split at h
      · cases h
        simpa [okBump] using hact2
      · split at h
        next cid =>
          cases h
          refine ⟨rfl, ?_⟩
          simp [okBump]
          omega
        next =>
          split at h
          next k hch =>
            split at h
            · cases h
              refine ⟨rfl, ?_⟩
              simp [okBump]
              omega
            · cases h
              refine ⟨rfl, ?_⟩
              simp [okBump]
              omega
          next hch =>
            cases h
            refine ⟨rfl, ?_⟩
            simp [okBump]
            omega

/-- `lazyInit` only touches the admission channel. -/
theorem lazyInit_fields (p : Pool) :
    p.lazyInit.closed = p.closed ∧ p.lazyInit.active = p.active ∧
      p.lazyInit.idle = p.idle := by
  unfold Pool.lazyInit
  cases p.ch with
  | some k => simp
  | none =>
    by_cases h : p.closed <;> simp [h]

/-- Any completed `get` preserves the `closed` flag and moves
`active - idleCount` up by exactly one on success and not at all on
failure. -/
theorem get_done (p : Pool) (now : Int) (dial : Option Nat)
    (r : Except GetErr PoolConn) (p' : Pool) (cl : List Nat)
    (h : Pool.get p now dial = GetStep.done r p' cl) :
    p'.closed = p.closed ∧
    p'.active - (p'.idle.length : Int) =
      p.active - (p.idle.length : Int) + okBump r := by
  simp only [Pool.get] at h
  split at h
  · split at h
    · cases h
    next k hch =>
      split at h
      · cases h
      · have hg := getLocked_done _ now dial r p' cl h
        have hl := lazyInit_fields p
        obtain ⟨hc, ha, hi⟩ := hl
        simp only at hg
        rw [hc, ha, hi] at hg
        exact hg
  · exact getLocked_done p now dial r p' cl h

/-- `put` preserves the `closed` flag and always moves `active - idleCount`
down by exactly one: either the connection re-enters the idle list, or it
(or the evicted back entry) is closed and `active` decremented. -/
theorem put_fields (p : Pool) (pc : PoolConn) (force : Bool) (now : Int) :
    (Pool.put p pc force now).1.closed = p.closed ∧
    (Pool.put p pc force now).1.active -
        (((Pool.put p pc force now).1.idle.length : Int)) =
      p.active - (p.idle.length : Int) - 1 := by
  unfold Pool.put
  by_cases hok : !p.closed && !force
  · simp only [hok, if_true]
    by_cases hover : p.maxIdle < ((({ pc with t := now } :: p.idle).length : Nat) : Int)
    · simp only [if_pos hover]
      cases hl : ({ pc with t := now } :: p.idle).getLast? with
      | none => simp at hl
      | some v =>
        cases hch : p.ch with
        | none => simp [hl, hch]; omega
        | some k =>
          by_cases hcl : p.closed <;> simp [hl, hch, hcl] <;> omega
    · simp only [if_neg hover]
      cases hch : p.ch with
      | none => simp [hch]; omega
      | some k =>
        by_cases hcl : p.closed <;> simp [hch, hcl] <;> omega
  · simp only [hok, if_false]
    cases hch : p.ch with
    | none => simp [hch]; omega
    | some k =>
      by_cases hcl : p.closed <;> simp [hch, hcl] <;> omega

/-- Pool shutdown preserves `active - idleCount`. -/
theorem closePool_active (p : Pool) :
    (Pool.closePool p).1.active - (((Pool.closePool p).1.idle.length : Int)) =
      p.active - (p.idle.length : Int) := by
  unfold Pool.closePool
  by_cases h : p.closed <;> simp [h]

/-- The pool-side bookkeeping invariant: `active` counts exactly the
checked-out connections plus the idle ones. -/
def World.inv (w : World) : Prop :=
  w.p.active = (w.checkedOut.length : Int) + (w.p.idle.length : Int)

/-- Every operation preserves the bookkeeping invariant. -/
theorem step_inv (w : World) (op : SysOp) (h : World.inv w) :
    World.inv (World.step w op) := by
  unfold World.inv at h
  cases op with
  | get now dial =>
    have hstep : World.step w (SysOp.get now dial) =
        match Pool.get w.p now dial with
        | GetStep.blocked => w
        | GetStep.done (Except.ok pc) p' _ =>
          { p := p', checkedOut := pc :: w.checkedOut }
        | GetStep.done (Except.error _) p' _ =>
          { p := p', checkedOut := w.checkedOut } := rfl
    rw [World.inv, hstep]
    cases hg : Pool.get w.p now dial with
    | blocked => exact h
    | done r p' cl =>
      have hd := get_done w.p now dial r p' cl hg
      simp only at hd
      cases r with
      | ok pc =>
        show p'.active = ((pc :: w.checkedOut).length : Int) + (p'.idle.length : Int)
        simp only [okBump] at hd
        simp only [List.length_cons]
        push_cast
        omega
      | error e =>
        show p'.active = (w.checkedOut.length : Int) + (p'.idle.length : Int)
        simp only [okBump] at hd
        omega
  | put i force now =>
    have hstep : World.step w (SysOp.put i force now) =
        match w.checkedOut.get? i with
        | none => w
        | some pc =>
          { p := (Pool.put w.p pc force now).1,
            checkedOut := w.checkedOut.eraseIdx i } := rfl
    rw [World.inv, hstep]
    cases hgi : w.checkedOut.get? i with
    | none => exact h
    | some pc =>
      have hlt : i < w.checkedOut.length := by
        by_contra hge
        push_neg at hge
        rw [List.get?_eq_none.mpr hge] at hgi
        cases hgi
      have hlen : (w.checkedOut.eraseIdx i).length = w.checkedOut.length - 1 :=
        List.length_eraseIdx_of_lt hlt
      have hp := (put_fields w.p pc force now).2
      show (Pool.put w.p pc force now).1.active =
        ((w.checkedOut.eraseIdx i).length : Int) +
          ((Pool.put w.p pc force now).1.idle.length : Int)
      omega
  | closePool =>
    have hstep : World.step w SysOp.closePool =
        { p := (Pool.closePool w.p).1, checkedOut := w.checkedOut } := rfl
    rw [World.inv, hstep]
    have hc := closePool_active w.p
    show (Pool.closePool w.p).1.active =
      (w.checkedOut.length : Int) + ((Pool.closePool w.p).1.idle.length : Int)
    omega

/-- The invariant holds after any operation sequence from a fresh world. -/
theorem trace_inv (ops : List SysOp) (w : World) (h : World.inv w) :
    World.inv (ops.foldl World.step w) := by
  induction ops generalizing w with
  | nil => exact h
  | cons op rest ih => exact ih (World.step w op) (step_inv w op h)

/-- The head surviving `dropWhile` fails the dropped-element predicate. -/
theorem dropWhile_head_false {α : Type} (q : α → Bool) (l : List α) (hd : α)
    (rest : List α) (h : l.dropWhile q = hd :: rest) : q hd = false := by
  induction l with
  | nil => simp at h
  | cons a tl ih =>
    by_cases ha : q a
    · rw [List.dropWhile_cons, if_pos ha] at h
      exact ih h
    · rw [List.dropWhile_cons, if_neg ha] at h
      cases h
      exact Bool.not_eq_true _ |>.mp ha

/-- A connection handed out by the locked `get` body satisfies the
configured maximum lifetime when one is configured. -/
theorem getLocked_ok_lifetime (p : Pool) (now : Int) (dial : Option Nat)
    (pc : PoolConn) (p' : Pool) (cl : List Nat) (hL : 0 < p.maxConnLifetime)
    (h : Pool.getLocked p now dial = GetStep.done (Except.ok pc) p' cl) :
    now - pc.created < p.maxConnLifetime := by
  simp only [Pool.getLocked] at h
  split at h
  next pc0 idle2 act2 cl2 hscan =>
    cases h
    rw [scanLoop_eq] at hscan
    cases hdrop : (prunePhase p now p.idle p.active).1.dropWhile
        (fun pc => !testPass p now pc) with
    | nil => rw [hdrop] at hscan; simp at hscan
    | cons hd rest =>
      rw [hdrop] at hscan
      simp only [Prod.mk.injEq, Option.some.injEq] at hscan
      obtain ⟨hpc, _, _, _⟩ := hscan
      have hq0 := dropWhile_head_false _ _ _ _ hdrop
      have hq : testPass p now hd = true := by simpa using hq0
      rw [hpc] at hq
      unfold testPass at hq
      rw [Bool.and_eq_true] at hq
      have h2 := hq.2
      rw [Bool.or_eq_true] at h2
      rcases h2 with h2 | h2
      · exfalso
        rw [beq_iff_eq] at h2
        omega
      · exact of_decide_eq_true h2
  next idle2 act2 cl2 hscan =>
    split at h
    · simp at h
    · split at h
      · simp at h
      · split at h
        next cid =>
          cases h
          simpa using hL
        next =>
          split at h
          next k hch =>
            split at h <;> simp at h
          next hch =>
            simp at h

/-- A connection handed out by `get` satisfies the configured maximum
lifetime when one is configured. -/
theorem get_ok_lifetime (p : Pool) (now : Int) (dial : Option Nat)
    (pc : PoolConn) (p' : Pool) (cl : List Nat) (hL : 0 < p.maxConnLifetime)
    (h : Pool.get p now dial = GetStep.done (Except.ok pc) p' cl) :
    now - pc.created < p.maxConnLifetime := by
  simp only [Pool.get] at h
  split at h
  · split at h
    · cases h
    next k hch =>
      split at h
      · cases h
      · have hcfg : ({ p.lazyInit with ch := some (k - 1) } : Pool).maxConnLifetime
            = p.maxConnLifetime := by
          unfold Pool.lazyInit
          cases p.ch with
          | some m => simp
          | none => by_cases hc : p.closed <;> simp [hc]
        have := getLocked_ok_lifetime _ now dial pc p' cl (by rw [hcfg]; exact hL) h
        rwa [hcfg] at this
  · exact getLocked_ok_lifetime p now dial pc p' cl hL h

/-- On an idle list sorted most-recently-idled-first, the pruning loop
removes exactly the stale entries (all clustered at the back), closing
them back-to-front and decrementing `active` once per removal. -/
theorem pruneLoop_sorted (p : Pool) (now : Int) (idle : List PoolConn)
    (hs : idle.Pairwise (fun a b => b.t ≤ a.t)) (act : Int) :
    pruneLoop p now idle.length idle act =
      (idle.filter (fun pc => !stale p now pc),
       act - ((idle.filter (fun pc => stale p now pc)).length : Int),
       (idle.filter (fun pc => stale p now pc)).reverse.map (·.c)) := by
  induction idle using List.reverseRecOn generalizing act with
  | nil => simp [pruneLoop]
  | append_singleton l b ih =>
    rw [List.pairwise_append] at hs
    obtain ⟨hsl, _, hrel⟩ := hs
    have hlast : (l ++ [b]).getLast? = some b := by
      simp [List.getLast?_concat]
    have hdrop : (l ++ [b]).dropLast = l := by
      simp
    have hlen : (l ++ [b]).length = l.length + 1 := by simp
    by_cases hb : stale p now b
    · have hstep : pruneLoop p now (l.length + 1) (l ++ [b]) act =
          ((pruneLoop p now l.length l (act - 1)).1,
           (pruneLoop p now l.length l (act - 1)).2.1,
           b.c :: (pruneLoop p now l.length l (act - 1)).2.2) := by
        simp only [pruneLoop, hlast, hb, if_true]
        rw [hdrop]
      rw [hlen, hstep, ih hsl (act - 1)]
      have hfb : (l ++ [b]).filter (fun pc => stale p now pc) =
          l.filter (fun pc => stale p now pc) ++ [b] := by
        rw [List.filter_append]
        simp [hb]
      have hfb2 : (l ++ [b]).filter (fun pc => !stale p now pc) =
          l.filter (fun pc => !stale p now pc) := by
        rw [List.filter_append]
        simp [hb]
      rw [hfb, hfb2]
      refine Prod.ext rfl (Prod.ext ?_ ?_)
      · simp only [List.length_append, List.length_singleton]
        push_cast
        omega
      · simp
    · have hfresh : ∀ a ∈ l ++ [b], stale p now a = false := by
        intro a ha
        rw [List.mem_append] at ha
        rcases ha with ha | ha
        · have hba : b.t ≤ a.t := hrel a ha b (List.mem_singleton.mpr rfl)
          unfold stale at hb ⊢
          simp only [decide_eq_true_eq] at hb
          simp only [decide_eq_false_iff_not]
          omega
        · rw [List.mem_singleton] at ha
          subst ha
          exact Bool.not_eq_true _ |>.mp hb
      have hb2 : stale p now b = false := Bool.not_eq_true _ |>.mp hb
      have hstep : pruneLoop p now (l ++ [b]).length (l ++ [b]) act = (l ++ [b], act, []) := by
        rw [hlen]
        simp only [pruneLoop, hlast, hb2]
        simp
      rw [hstep]
      have hf1 : (l ++ [b]).filter (fun pc => !stale p now pc) = l ++ [b] := by
        apply List.filter_eq_self.mpr
        intro a ha
        rw [hfresh a ha]
        rfl
      have hf2 : (l ++ [b]).filter (fun pc => stale p now pc) = [] := by
        apply List.filter_eq_nil_iff.mpr
        intro a ha
        rw [hfresh a ha]
        simp
      rw [hf1, hf2]
      simp

/-- `put` sends exactly one token back to an initialized channel whenever
the pool is open — in every branch, including a plain return to idle —
and never touches a closed pool's channel. -/
theorem put_permit (p : Pool) (pc : PoolConn) (force : Bool) (now : Int) :
    (p.closed = false → ∀ k, p.ch = some k →
      (Pool.put p pc force now).1.ch = some (k + 1)) ∧
    (p.closed = true → (Pool.put p pc force now).1.ch = p.ch) := by
  constructor
  · intro hc k hch
    unfold Pool.put
    by_cases hok : !p.closed && !force
    · simp only [hok, if_true]
      by_cases hover : p.maxIdle < ((({ pc with t := now } :: p.idle).length : Nat) : Int)
      · simp only [if_pos hover]
        cases hl : ({ pc with t := now } :: p.idle).getLast? with
        | none => simp at hl
        | some v => simp [hl, hch, hc]
      · simp only [if_neg hover]
        simp [hch, hc]
    · simp only [hok, if_false]
      simp [hch, hc]
  · intro hc
    unfold Pool.put
    by_cases hok : !p.closed && !force
    · rw [hc] at hok; simp at hok
    · simp only [hok, if_false]
      cases hch : p.ch with
      | none => simp [hch]
      | some k => simp [hch, hc]

/-- `put` preserves the pool's `maxIdle` configuration and keeps the idle
registry within the configured bound. -/
theorem put_bound (p : Pool) (pc : PoolConn) (force : Bool) (now : Int)
    (h : (p.idle.length : Int) ≤ p.maxIdle) :
    ((Pool.put p pc force now).1.idle.length : Int) ≤ (Pool.put p pc force now).1.maxIdle
      ∧ (Pool.put p pc force now).1.maxIdle = p.maxIdle := by
  unfold Pool.put
  by_cases hok : !p.closed && !force
  · simp only [hok, if_true]
    by_cases hover : p.maxIdle < ((({ pc with t := now } :: p.idle).length : Nat) : Int)
    · simp only [if_pos hover]
      cases hl : ({ pc with t := now } :: p.idle).getLast? with
      | none => simp at hl
      | some v =>
        cases hch : p.ch with
        | none => simp [hch]; omega
        | some k =>
          by_cases hcl : p.closed <;> simp [hch, hcl] <;> omega
    · have hover3 : ((p.idle.length : Int)) + 1 ≤ p.maxIdle := by
        push_neg at hover
        simpa using hover
      simp only [if_neg hover]
      cases hch : p.ch with
      | none => simp [hch]; omega
      | some k =>
        by_cases hcl : p.closed <;> simp [hch, hcl] <;> omega
  · simp only [hok, if_false]
    cases hch : p.ch with
    | none => simp [hch]; omega
    | some k =>
      by_cases hcl : p.closed <;> simp [hch, hcl] <;> omega

/-- When a return overflows the idle registry of an open pool, `put`
pushes the returned connection to the front and evicts the back entry of
the pushed list: the least recently idled connection. -/
theorem put_evict (p : Pool) (pc : PoolConn) (now : Int)
    (hc : p.closed = false) (hover : p.maxIdle < (p.idle.length : Int) + 1) :
    (Pool.put p pc false now).1.idle = ({ pc with t := now } :: p.idle).dropLast ∧
    (Pool.put p pc false now).2 =
      (({ pc with t := now } :: p.idle).getLast?.map (·.c)).toList ∧
    (Pool.put p pc false now).1.active = p.active - 1 := by
  unfold Pool.put
  have hok : (!p.closed && !false) = true := by rw [hc]; rfl
  have hover2 : p.maxIdle < ((({ pc with t := now } :: p.idle).length : Nat) : Int) := by
    simpa using hover
  simp only [hok, if_true, if_pos hover2]
  cases hl : ({ pc with t := now } :: p.idle).getLast? with
  | none => simp at hl
  | some v =>
    cases hch : p.ch with
    | none => simp [hch]
    | some k => simp [hch, hc]

/-- `put` on a closed pool or with `forceClose` never re-idles: the idle
registry is untouched, the returned connection itself is closed, and
`active` drops by one. -/
theorem put_forced (p : Pool) (pc : PoolConn) (force : Bool) (now : Int)
    (h : p.closed = true ∨ force = true) :
    (Pool.put p pc force now).1.idle = p.idle ∧
    (Pool.put p pc force now).2 = [pc.c] ∧
    (Pool.put p pc force now).1.active = p.active - 1 := by
  unfold Pool.put
  have hok : (!p.closed && !force) = false := by
    rcases h with h | h <;> rw [h] <;> simp
  simp only [hok, if_false]
  cases hch : p.ch with
  | none => simp [hch]
  | some k =>
    by_cases hcl : p.closed <;> simp [hch, hcl]

/-- The locked `get` body on a closed pool with an empty idle registry
fails with the pool-closed error without closing anything. -/
theorem getLocked_closed (p : Pool) (now : Int) (dial : Option Nat)
    (hc : p.closed = true) (hi : p.idle = []) :
    Pool.getLocked p now dial =
      GetStep.done (Except.error GetErr.poolClosed)
        { p with idle := [], active := p.active } [] := by
  have hpr : prunePhase p now p.idle p.active = ([], p.active, []) := by
    rw [hi]
    unfold prunePhase
    by_cases ht : 0 < p.idleTimeout <;> simp [ht, pruneLoop]
  simp only [Pool.getLocked, hpr]
  simp [scanLoop, hc]

/-- `get` on a closed pool with an empty idle registry (and, as `Close`
and `lazyInit` guarantee, a channel that is absent or already closed)
fails with the pool-closed error without closing anything. -/
theorem get_closed (p : Pool) (now : Int) (dial : Option Nat)
    (hc : p.closed = true) (hi : p.idle = [])
    (hch : p.ch = none ∨ p.chClosed = true) :
    ∃ p', Pool.get p now dial =
      GetStep.done (Except.error GetErr.poolClosed) p' [] := by
  unfold Pool.get
  by_cases hw : (p.wait && decide (0 < p.maxActive)) = true
  · rw [if_pos hw]
    cases hpch : p.ch with
    | none =>
      have hinit : p.lazyInit = { p with ch := some 0, chClosed := true } := by
        unfold Pool.lazyInit
        rw [hpch]
        simp [hc]
      rw [hinit]
      exact ⟨_, getLocked_closed _ now dial hc hi⟩
    | some k =>
      have hclosedch : p.chClosed = true := by
        rcases hch with h | h
        · rw [h] at hpch; cases hpch
        · exact h
      have hinit : p.lazyInit = p := by
        unfold Pool.lazyInit
        rw [hpch]
      rw [hinit, hpch]
      simp only [hclosedch, Bool.not_true, Bool.false_and]
      exact ⟨_, getLocked_closed _ now dial hc hi⟩
  · rw [if_neg hw]
    exact ⟨_, getLocked_closed p now dial hc hi⟩

/-- Once the pool is closed, no operation reopens it. -/
theorem step_closed (w : World) (op : SysOp) (h : w.p.closed = true) :
    (World.step w op).p.closed = true := by
  cases op with
  | get now dial =>
    have hstep : World.step w (SysOp.get now dial) =
        match Pool.get w.p now dial with
        | GetStep.blocked => w
        | GetStep.done (Except.ok pc) p' _ =>
          { p := p', checkedOut := pc :: w.checkedOut }
        | GetStep.done (Except.error _) p' _ =>
          { p := p', checkedOut := w.checkedOut } := rfl
    rw [hstep]
    cases hg : Pool.get w.p now dial with
    | blocked => exact h
    | done r p' cl =>
      have hcl := (get_done w.p now dial r p' cl hg).1
      cases r with
      | ok pc =>
        show p'.closed = true
        rw [hcl]; exact h
      | error e =>
        show p'.closed = true
        rw [hcl]; exact h
  | put i force now =>
    have hstep : World.step w (SysOp.put i force now) =
        match w.checkedOut.get? i with
        | none => w
        | some pc =>
          { p := (Pool.put w.p pc force now).1,
            checkedOut := w.checkedOut.eraseIdx i } := rfl
    rw [hstep]
    cases hgi : w.checkedOut.get? i with
    | none => exact h
    | some pc =>
      show (Pool.put w.p pc force now).1.closed = true
      rw [(put_fields w.p pc force now).1]
      exact h
  | closePool =>
    show (Pool.closePool w.p).1.closed = true
    unfold Pool.closePool
    rw [if_pos h]
    exact h

/-- Once its error is latched, a low-level connection is inert: every
further operation leaves the state untouched. -/
theorem llconn_step_frozen (c : LLConn) (e : String) (h : c.err = some e)
    (op : LLOp) : LLConn.step c op = c := by
  have hfatal : ∀ x, LLConn.fatal c x = (c, x) := by
    intro x
    unfold LLConn.fatal
    rw [if_neg (by rw [h]; simp)]
  cases op with
  | close nce =>
    show (LLConn.close c nce).1 = c
    unfold LLConn.close
    rw [h]
  | pub topic msg we fe =>
    show (LLConn.pub c topic msg we fe).1 = c
    unfold LLConn.pub
    by_cases hg : topic.length = 0 ∨ msg = none
    · rw [if_pos hg, hfatal]
    · rw [if_neg hg]
      cases we with
      | some e2 => simp [hfatal]
      | none =>
        cases fe with
        | some e2 => simp [hfatal]
        | none => rfl
  | send we =>
    show (LLConn.send c we).1 = c
    unfold LLConn.send
    cases we with
    | some e2 => simp [hfatal]
    | none => rfl
  | flush fe =>
    show (LLConn.flushOp c fe).1 = c
    unfold LLConn.flushOp
    cases fe with
    | some e2 => simp [hfatal]
    | none => rfl
  | receive re =>
    show (LLConn.receive c re).1 = c
    unfold LLConn.receive
    cases re with
    | some e2 => simp [hfatal]
    | none => rfl
  | post ce we fe re =>
    show (LLConn.post c ce we fe re).1 = c
    unfold LLConn.post
    by_cases hce : ce = true
    · rw [if_pos hce]
    · rw [if_neg hce]
      cases we with
      | some e2 => simp [hfatal]
      | none =>
        cases fe with
        | some e2 => simp [hfatal]
        | none =>
          cases re with
          | some e2 => simp [hfatal]
          | none => rfl

/-- A latched low-level connection stays itself under any operation
sequence. -/
theorem llconn_trace_frozen (ops : List LLOp) (c : LLConn) (e : String)
    (h : c.err = some e) : ops.foldl LLConn.step c = c := by
  induction ops with
  | nil => rfl
  | cons op rest ih =>
    show rest.foldl LLConn.step (LLConn.step c op) = c
    rw [llconn_step_frozen c e h op]
    exact ih

/-! ## The claims -/

/-- C1: at every point where the pool's state is observed under the
exclusion lock, `ActiveCount` equals the number of connections currently
dialed and not yet closed — the checked-out connections plus `IdleCount` —
for every sequence of `Get`, `put`, and `Close` operations from a fresh
pool. -/
theorem C1_active_counts_inuse_plus_idle (tob : Option (Nat → Int → Bool))
    (maxIdle maxActive idleTimeout : Int) (wait : Bool) (maxConnLifetime : Int)
    (ops : List SysOp) :
    Pool.activeCount
        ((ops.foldl World.step
          (World.init tob maxIdle maxActive idleTimeout wait maxConnLifetime)).p) =
      (((ops.foldl World.step
          (World.init tob maxIdle maxActive idleTimeout wait
            maxConnLifetime)).checkedOut.length : Int)) +
      ((Pool.idleCount
          ((ops.foldl World.step
            (World.init tob maxIdle maxActive idleTimeout wait
              maxConnLifetime)).p) : Int)) :=
  trace_inv ops _ (by simp [World.inv, World.init, Pool.init])

/-- C2 counterexample: returning a healthy connection to the open waiting
pool `exPoolC2` closes nothing and re-idles the connection, yet the
admission channel's token count rises from 0 to 1 — `put` releases a
permit on a mere return to the idle registry, contrary to the claim. -/
theorem C2_counterexample :
    exPoolC2.ch = some 0 ∧
    (Pool.put exPoolC2 { c := 7, t := 0, created := 0 } false 5).2 = [] ∧
    (Pool.put exPoolC2 { c := 7, t := 0, created := 0 } false 5).1.idle.map (·.c)
      = [7] ∧
    (Pool.put exPoolC2 { c := 7, t := 0, created := 0 } false 5).1.ch = some 1 :=
  ⟨rfl, rfl, rfl, rfl⟩

/-- C2 (amended): the admission permit tracks the checked-out state, not
the active state: `put` releases exactly one permit on every return to an
open pool whose channel is initialized — whether the connection is closed
or merely returned to the idle registry — and releases none once the pool
is closed. -/
theorem C2_put_always_releases_permit (p : Pool) (pc : PoolConn)
    (force : Bool) (now : Int) (k : Nat) :
    (p.closed = false → p.ch = some k →
      (Pool.put p pc force now).1.ch = some (k + 1)) ∧
    (p.closed = true → (Pool.put p pc force now).1.ch = p.ch) :=
  ⟨fun hc hch => (put_permit p pc force now).1 hc k hch,
   fun hc => (put_permit p pc force now).2 hc⟩

/-- Witness for the amended C2 theorem at the concrete pool `exPoolC2`. -/
theorem C2_witness :
    (Pool.put exPoolC2 { c := 8, t := 0, created := 0 } true 5).1.ch = some 1 :=
  (C2_put_always_releases_permit exPoolC2 { c := 8, t := 0, created := 0 }
    true 5 0).1 rfl rfl

/-- C3: during `get`'s idle scan, entries pop from the front; the first
connection passing the health hook and the lifetime test is returned
immediately; every entry failing either test is closed (ids accumulated in
pop order) and `active` decremented once per failure; and with a positive
max lifetime configured, any connection returned by a completed `get` has
age strictly under that lifetime. -/
theorem C3_scan_returns_first_healthy :
    (∀ (p : Pool) (now : Int) (idle : List PoolConn) (act : Int),
      scanLoop p now idle act =
        match idle.dropWhile (fun pc => !testPass p now pc) with
        | [] => (none, [], act - (idle.length : Int), idle.map (·.c))
        | pc :: rest =>
          (some pc, rest,
           act - ((idle.takeWhile (fun pc => !testPass p now pc)).length : Int),
           (idle.takeWhile (fun pc => !testPass p now pc)).map (·.c))) ∧
    (∀ (p : Pool) (now : Int) (dial : Option Nat) (pc : PoolConn) (p' : Pool)
      (cl : List Nat), 0 < p.maxConnLifetime →
      Pool.get p now dial = GetStep.done (Except.ok pc) p' cl →
      now - pc.created < p.maxConnLifetime) :=
  ⟨scanLoop_eq, get_ok_lifetime⟩

/-- Witness for C3 at the concrete pool `exPoolLife`: the over-age
connection 1 is skipped and the returned connection 2 is under the
lifetime. -/
theorem C3_witness :
    100 - ({ c := 2, t := 90, created := 95 } : PoolConn).created <
      exPoolLife.maxConnLifetime :=
  C3_scan_returns_first_healthy.2 exPoolLife 100 (some 5)
    { c := 2, t := 90, created := 95 }
    { exPoolLife with idle := [], active := 1 } [1] (by decide) rfl

/-- C4: with the idle list ordered most-recently-idled first (as the pool
maintains it), a positive idle timeout makes the pruning phase evict from
the back exactly the entries whose elapsed idle time strictly exceeds the
timeout, closing each (back first) and decrementing `active` once per
eviction; staleness is exactly `now - idleSince > idleTimeout`; a zero
idle timeout disables pruning. -/
theorem C4_prune_iff_stale (p : Pool) (now : Int) (idle : List PoolConn)
    (act : Int) (hs : idle.Pairwise (fun a b => b.t ≤ a.t)) :
    (0 < p.idleTimeout →
      prunePhase p now idle act =
        (idle.filter (fun pc => !stale p now pc),
         act - ((idle.filter (fun pc => stale p now pc)).length : Int),
         (idle.filter (fun pc => stale p now pc)).reverse.map (·.c))) ∧
    (∀ pc ∈ idle, (stale p now pc = true ↔ p.idleTimeout < now - pc.t)) ∧
    (p.idleTimeout = 0 → prunePhase p now idle act = (idle, act, [])) := by
  refine ⟨?_, ?_, ?_⟩
  · intro ht
    unfold prunePhase
    rw [if_pos ht]
    exact pruneLoop_sorted p now idle hs act
  · intro pc _
    unfold stale
    constructor
    · intro h
      have := of_decide_eq_true h
      omega
    · intro h
      exact decide_eq_true (by omega)
  · intro h0
    unfold prunePhase
    rw [if_neg (by omega)]

/-- Witness for C4 at the concrete pool `exPoolPrune`: the stale back
entry 2 is evicted, the fresh front entry 1 survives, `active` drops by
one. -/
theorem C4_witness :
    prunePhase exPoolPrune 100 exPoolPrune.idle 2 =
      ([{ c := 1, t := 95, created := 0 }], 1, [2]) := by
  have h := (C4_prune_iff_stale exPoolPrune 100 exPoolPrune.idle 2
    (by decide)).1 (by decide)
  rw [h]
  decide

/-- C5: the idle registry never exceeds the configured max-idle count
across any sequence of returns starting within the bound; and a return
that would push the registry one over the bound evicts the back —
least-recently-idled — entry of the pushed list (closing it and
decrementing `active`), so the just-returned connection takes the front
slot. -/
theorem C5_max_idle_bound :
    (∀ (p : Pool) (rets : List (PoolConn × Bool × Int)),
      (p.idle.length : Int) ≤ p.maxIdle →
      (((rets.foldl (fun q r => (Pool.put q r.1 r.2.1 r.2.2).1) p).idle.length : Int)
          ≤ (rets.foldl (fun q r => (Pool.put q r.1 r.2.1 r.2.2).1) p).maxIdle ∧
        (rets.foldl (fun q r => (Pool.put q r.1 r.2.1 r.2.2).1) p).maxIdle
          = p.maxIdle)) ∧
    (∀ (p : Pool) (pc : PoolConn) (now : Int),
      p.closed = false → p.maxIdle < (p.idle.length : Int) + 1 →
      (Pool.put p pc false now).1.idle = ({ pc with t := now } :: p.idle).dropLast ∧
      (Pool.put p pc false now).2 =
        (({ pc with t := now } :: p.idle).getLast?.map (·.c)).toList ∧
      (Pool.put p pc false now).1.active = p.active - 1) := by
  constructor
  · intro p rets
    induction rets generalizing p with
    | nil => intro h; exact ⟨h, rfl⟩
    | cons r rest ih =>
      intro h
      have hb := put_bound p r.1 r.2.1 r.2.2 h
      have hr := ih (Pool.put p r.1 r.2.1 r.2.2).1 hb.1
      refine ⟨hr.1, ?_⟩
      show (rest.foldl (fun q r => (Pool.put q r.1 r.2.1 r.2.2).1)
        (Pool.put p r.1 r.2.1 r.2.2).1).maxIdle = p.maxIdle
      rw [hr.2, hb.2]
  · intro p pc now hc hover
    exact put_evict p pc now hc hover

/-- Witness for C5 at the concrete pool `exPoolPut` (`MaxIdle = 1`, one
idle entry): returning connection 2 evicts the older connection 1. -/
theorem C5_witness :
    (Pool.put exPoolPut { c := 2, t := 0, created := 3 } false 20).1.idle =
      [{ c := 2, t := 20, created := 3 }] ∧
    (Pool.put exPoolPut { c := 2, t := 0, created := 3 } false 20).2 = [1] ∧
    (Pool.put exPoolPut { c := 2, t := 0, created := 3 } false 20).1.active = 1 := by
  have h := C5_max_idle_bound.2 exPoolPut { c := 2, t := 0, created := 3 } 20
    rfl (by decide)
  refine ⟨?_, ?_, ?_⟩
  · rw [h.1]
    decide
  · rw [h.2.1]
    decide
  · rw [h.2.2]
    decide

/-- C6: `Close` on an open pool sets the closed flag, detaches the whole
idle registry in one step, subtracts the detached count from `active`, and
closes each detached connection exactly once (the close list is exactly
the detached registry); a second `Close` is a no-op returning success; the
closed flag never reverts under any operation; and a `get` completed after
shutdown fails with the pool-closed error. -/
theorem C6_close_shutdown :
    (∀ p : Pool, p.closed = false →
      (Pool.closePool p).1.closed = true ∧
      (Pool.closePool p).1.idle = [] ∧
      (Pool.closePool p).1.active = p.active - (p.idle.length : Int) ∧
      (Pool.closePool p).2 = p.idle.map (·.c)) ∧
    (∀ p : Pool, p.closed = true → Pool.closePool p = (p, [])) ∧
    (∀ (w : World) (op : SysOp), w.p.closed = true →
      (World.step w op).p.closed = true) ∧
    (∀ (p : Pool) (now : Int) (dial : Option Nat),
      p.closed = true → p.idle = [] → (p.ch = none ∨ p.chClosed = true) →
      ∃ p', Pool.get p now dial =
        GetStep.done (Except.error GetErr.poolClosed) p' []) := by
  refine ⟨?_, ?_, step_closed, get_closed⟩
  · intro p hc
    unfold Pool.closePool
    rw [if_neg (by rw [hc]; simp)]
    exact ⟨rfl, rfl, rfl, rfl⟩
  · intro p hc
    unfold Pool.closePool
    rw [if_pos hc]

/-- Witness for C6 at the concrete pool `exPoolClose`: shutdown closes
connections 1 and 2 once each, a second shutdown is a no-op, and a
subsequent `get` fails with the pool-closed error. -/
theorem C6_witness :
    (Pool.closePool exPoolClose).1.closed = true ∧
    (Pool.closePool exPoolClose).2 = [1, 2] ∧
    Pool.closePool (Pool.closePool exPoolClose).1 =
      ((Pool.closePool exPoolClose).1, []) ∧
    (∃ p', Pool.get (Pool.closePool exPoolClose).1 100 (some 9) =
      GetStep.done (Except.error GetErr.poolClosed) p' []) := by
  have h1 := C6_close_shutdown.1 exPoolClose rfl
  refine ⟨h1.1, ?_, ?_, ?_⟩
  · rw [h1.2.2.2]
    decide
  · exact C6_close_shutdown.2.1 _ h1.1
  · exact C6_close_shutdown.2.2.2 _ 100 (some 9) h1.1 h1.2.1 (Or.inl rfl)

/-- C7: `Get` never fails outright — a failing `get` yields the sentinel
`ErrorConn` carrying the error, a successful one the pooled connection —
and every operation on the sentinel (`Close`, `Err`, `Pub`) returns the
stored error immediately. -/
theorem C7_get_total :
    (∀ (p : Pool) (now : Int) (dial : Option Nat) (e : GetErr) (p' : Pool)
      (cl : List Nat),
      Pool.get p now dial = GetStep.done (Except.error e) p' cl →
      Pool.Get p now dial =
        PoolGetStep.done (ConnHandle.failed { error := e }) p' cl) ∧
    (∀ (p : Pool) (now : Int) (dial : Option Nat) (pc : PoolConn) (p' : Pool)
      (cl : List Nat),
      Pool.get p now dial = GetStep.done (Except.ok pc) p' cl →
      Pool.Get p now dial = PoolGetStep.done (ConnHandle.pooled pc) p' cl) ∧
    (∀ (ec : ErrorConn) (topic : String) (message : List UInt8),
      ErrorConn.close ec = ec.error ∧ ErrorConn.errResult ec = ec.error ∧
      ErrorConn.pub ec topic message = ec.error) := by
  refine ⟨?_, ?_, ?_⟩
  · intro p now dial e p' cl h
    unfold Pool.Get
    rw [h]
  · intro p now dial pc p' cl h
    unfold Pool.Get
    rw [h]
  · intro ec topic message
    exact ⟨rfl, rfl, rfl⟩

/-- Witness for C7: the exhausted pool `exPoolFull` hands back a sentinel
`ErrorConn` holding the pool-exhausted error instead of failing. -/
theorem C7_witness :
    Pool.Get exPoolFull 100 (some 5) =
      PoolGetStep.done (ConnHandle.failed { error := GetErr.poolExhausted })
        { exPoolFull with idle := [], active := 2 } [] :=
  C7_get_total.1 exPoolFull 100 (some 5) GetErr.poolExhausted
    { exPoolFull with idle := [], active := 2 } [] rfl

/-- C8: with a positive ceiling, blocking-wait disabled, an open pool, an
empty idle registry, and `active` at the ceiling, `get` fails immediately
with the pool-exhausted error, closing nothing and leaving `active`,
`idle`, `closed` and the channel unchanged. -/
theorem C8_exhausted_fail_fast (p : Pool) (now : Int) (dial : Option Nat)
    (hmax : 0 < p.maxActive) (hw : p.wait = false) (hc : p.closed = false)
    (hi : p.idle = []) (hfull : p.maxActive ≤ p.active) :
    ∃ p', Pool.get p now dial =
      GetStep.done (Except.error GetErr.poolExhausted) p' [] ∧
      p'.active = p.active ∧ p'.idle = p.idle ∧ p'.closed = p.closed ∧
      p'.ch = p.ch := by
  have hpr : prunePhase p now p.idle p.active = ([], p.active, []) := by
    rw [hi]
    unfold prunePhase
    by_cases ht : 0 < p.idleTimeout <;> simp [ht, pruneLoop]
  have hcond : (p.wait && decide (0 < p.maxActive)) = false := by
    rw [hw]
    rfl
  refine ⟨{ p with idle := [], active := p.active }, ?_, rfl, ?_, rfl, rfl⟩
  · unfold Pool.get
    rw [hcond]
    simp only [Bool.false_eq_true, if_false]
    simp only [Pool.getLocked, hpr]
    simp [scanLoop, hc, hw, hmax, hfull]
  · rw [hi]

/-- Witness for C8 at the concrete pool `exPoolFull` (`MaxActive = 2`,
both active, no waiting). -/
theorem C8_witness :
    ∃ p', Pool.get exPoolFull 100 (some 5) =
      GetStep.done (Except.error GetErr.poolExhausted) p' [] ∧
      p'.active = exPoolFull.active ∧ p'.idle = exPoolFull.idle ∧
      p'.closed = exPoolFull.closed ∧ p'.ch = exPoolFull.ch :=
  C8_exhausted_fail_fast exPoolFull 100 (some 5) (by decide) rfl rfl rfl
    (by decide)

/-- C9: returning a checked-out connection through the wrapper's `Close`
(which routes to `put` with `forceClose := Err() != nil`) when the
connection reports an error always closes the underlying connection and
decrements `active`; the connection never re-enters the idle registry,
which is left untouched. -/
theorem C9_errored_return_closes (p : Pool) (pc : PoolConn)
    (connErr : Nat → Bool) (now : Int) (he : connErr pc.c = true) :
    (PoolConn.close p pc connErr now).1.idle = p.idle ∧
    (PoolConn.close p pc connErr now).2 = [pc.c] ∧
    (PoolConn.close p pc connErr now).1.active = p.active - 1 := by
  unfold PoolConn.close
  rw [he]
  exact put_forced p pc true now (Or.inr rfl)

/-- Witness for C9: returning the erroring connection 9 to `exPoolPut`
closes it and leaves the idle registry unchanged. -/
theorem C9_witness :
    (PoolConn.close exPoolPut { c := 9, t := 0, created := 0 }
        (fun _ => true) 50).1.idle = exPoolPut.idle ∧
    (PoolConn.close exPoolPut { c := 9, t := 0, created := 0 }
        (fun _ => true) 50).2 = [9] ∧
    (PoolConn.close exPoolPut { c := 9, t := 0, created := 0 }
        (fun _ => true) 50).1.active = exPoolPut.active - 1 :=
  C9_errored_return_closes exPoolPut { c := 9, t := 0, created := 0 }
    (fun _ => true) 50 rfl

/-- C10: the low-level connection's error latches: once set (by `Close` or
a fatal failure in `Pub`/`Send`/`Flush`/`Receive`/`Post`), any sequence of
further operations leaves the state untouched, `Err` keeps returning the
same non-nil error, and every subsequent `Close` returns the latched error
without closing the underlying network connection again. -/
theorem C10_error_latches (c : LLConn) (e : String) (ops : List LLOp)
    (nce : Option String) (h : c.err = some e) :
    (ops.foldl LLConn.step c).err = some e ∧
    (ops.foldl LLConn.step c).closeCount = c.closeCount ∧
    LLConn.errResult (ops.foldl LLConn.step c) = some e ∧
    LLConn.close (ops.foldl LLConn.step c) nce = (ops.foldl LLConn.step c, some e) := by
  have hfr := llconn_trace_frozen ops c e h
  rw [hfr]
  refine ⟨h, rfl, h, ?_⟩
  unfold LLConn.close
  rw [h]

/-- Witness for C10 at the latched connection `exConn` under a sample
operation sequence. -/
theorem C10_witness :
    (([LLOp.close none, LLOp.send (some "x"),
        LLOp.pub "t" (some [1]) none (some "y")].foldl LLConn.step exConn)).err
        = some "boom" ∧
    (([LLOp.close none, LLOp.send (some "x"),
        LLOp.pub "t" (some [1]) none (some "y")].foldl LLConn.step exConn)).closeCount
        = exConn.closeCount ∧
    LLConn.errResult
        (([LLOp.close none, LLOp.send (some "x"),
          LLOp.pub "t" (some [1]) none (some "y")].foldl LLConn.step exConn))
        = some "boom" ∧
    LLConn.close
        (([LLOp.close none, LLOp.send (some "x"),
          LLOp.pub "t" (some [1]) none (some "y")].foldl LLConn.step exConn)) none
        = (([LLOp.close none, LLOp.send (some "x"),
            LLOp.pub "t" (some [1]) none (some "y")].foldl LLConn.step exConn),
           some "boom") :=
  C10_error_latches exConn "boom"
    [LLOp.close none, LLOp.send (some "x"),
     LLOp.pub "t" (some [1]) none (some "y")] none rfl

end Mingo
